import Mathlib

/-!
Shallow embedding of the recipe ingredient parser in
`src/parsers/recipe_parser.py` of the wegmans-shopping repository.

Strings are modelled as `List Char` (`Str`).  Python's string methods
(`strip`, `split`, `lower`, `title`, …) are implemented character by
character, restricted to the ASCII behaviour they exhibit on the parser's
inputs.  The anchored regular expressions of the source are implemented
as deterministic prefix strippers when the pattern is backtracking-free,
and otherwise through a small priority-ordered backtracking matcher (`M`)
whose result order coincides with the DFS order of Python's `re` engine,
so that `head?` of the result list is exactly the match `re.match` finds.
-/

abbrev Str := List Char

/-- Python's default whitespace characters (the ASCII ones), as stripped by
`str.strip()` and split on by `str.split()`. -/
def pyWs (c : Char) : Bool :=
  c = ' ' || c = '\t' || c = '\n' || c = '\r' || c = '\x0b' || c = '\x0c'

def isDigitChar (c : Char) : Bool := decide ('0' ≤ c ∧ c ≤ '9')

def isAsciiUpper (c : Char) : Bool := decide ('A' ≤ c ∧ c ≤ 'Z')

def isAsciiLower (c : Char) : Bool := decide ('a' ≤ c ∧ c ≤ 'z')

def isAsciiAlpha (c : Char) : Bool := isAsciiUpper c || isAsciiLower c

/-- `str.lower()` on one character (ASCII range, which is all the parser's
tables use). -/
def pyLowerChar (c : Char) : Char :=
  if isAsciiUpper c then Char.ofNat (c.toNat + 32) else c

/-- `str.upper()` on one character (ASCII range). -/
def pyUpperChar (c : Char) : Char :=
  if isAsciiLower c then Char.ofNat (c.toNat - 32) else c

def pyLower (s : Str) : Str := s.map pyLowerChar

/-- `str.lstrip()` (default whitespace). -/
def trimLeft (s : Str) : Str := s.dropWhile pyWs

/-- `str.rstrip()` (default whitespace). -/
def trimRight (s : Str) : Str := s.rdropWhile pyWs

/-- `str.strip()` (default whitespace). -/
def trim (s : Str) : Str := trimLeft (trimRight s)

/-- `str.strip(cs)`: drop the characters of `cs` from both ends. -/
def stripChars (cs : Str) (s : Str) : Str :=
  ((s.dropWhile (cs.contains ·)).reverse.dropWhile (cs.contains ·)).reverse

/-- `str.rstrip(cs)`: drop the characters of `cs` from the right end. -/
def rstripChars (cs : Str) (s : Str) : Str :=
  (s.reverse.dropWhile (cs.contains ·)).reverse

/-- `text.split('\n')`: split on every newline; `"".split('\n') == ['']`. -/
def splitNL : Str → List Str
  | [] => [[]]
  | c :: rest =>
    if c = '\n' then [] :: splitNL rest
    else
      match splitNL rest with
      | [] => [[c]]
      | l :: ls => (c :: l) :: ls

/-- `str.split()` with no argument: maximal runs of non-whitespace, no empty
words.  `acc` is the current word, reversed. -/
def splitWSGo (acc : Str) : Str → List Str
  | [] => if acc.isEmpty then [] else [acc.reverse]
  | c :: rest =>
    if pyWs c then
      if acc.isEmpty then splitWSGo [] rest else acc.reverse :: splitWSGo [] rest
    else splitWSGo (c :: acc) rest

def splitWS (s : Str) : List Str := splitWSGo [] s

/-- `' '.join(ws)`. -/
def joinSpace : List Str → Str
  | [] => []
  | [w] => w
  | w :: rest => w ++ ' ' :: joinSpace rest

/-- `needle in hay` (substring test). -/
def containsSub (needle hay : Str) : Bool :=
  (List.range (hay.length + 1)).any (fun i => needle.isPrefixOf (hay.drop i))

/-- `str.title()`: a cased character is uppercased when the previous character
is not cased and lowercased otherwise (ASCII letters). -/
def pyTitleGo : Bool → Str → Str
  | _, [] => []
  | prevCased, c :: rest =>
    let c' :=
      if isAsciiAlpha c then (if prevCased then pyLowerChar c else pyUpperChar c) else c
    c' :: pyTitleGo (isAsciiAlpha c) rest

def pyTitle (s : Str) : Str := pyTitleGo false s

def memStr (w : Str) (l : List Str) : Bool := l.contains w

def strs (l : List String) : List Str := l.map String.data

/-!
### Priority-ordered backtracking matcher

A matcher sends an input to the list of possible remainders, ordered the
way Python's `re` engine explores them (greedy quantifiers longest first,
alternatives in written order, optional groups present first).  The head of
the list is therefore the remainder of the match `re.match` returns.
-/

abbrev M := Str → List Str

def mSeq (a b : M) : M := fun s => (a s).flatMap b

/-- `X?` (greedy option). -/
def mOpt (a : M) : M := fun s => a s ++ [s]

/-- `[c]*` for a character class (greedy star). -/
def mClsMany (p : Char → Bool) : M := fun s =>
  let n := (s.takeWhile p).length
  (List.range (n + 1)).map (fun k => s.drop (n - k))

/-- `[c]+` for a character class (greedy plus). -/
def mClsSome (p : Char → Bool) : M := fun s =>
  let n := (s.takeWhile p).length
  (List.range n).map (fun k => s.drop (n - k))

/-- Case-sensitive literal. -/
def mLit (w : Str) : M := fun s =>
  if s.take w.length = w then [s.drop w.length] else []

/-- Case-insensitive literal (`re.IGNORECASE`). -/
def mLitCI (w : Str) : M := fun s =>
  if pyLower (s.take w.length) = pyLower w then [s.drop w.length] else []

/-- Alternation of case-insensitive literals, in list order. -/
def mAlts (ws : List Str) : M := fun s => ws.flatMap (fun w => mLitCI w s)

/-- `\s*`. -/
def mWsMany : M := mClsMany pyWs

/-- `\s+`. -/
def mWsSome : M := mClsSome pyWs

/-- Index of the leftmost position at which the matcher succeeds
(`re.search` / the scan done by `re.sub` and `re.split`). -/
def findMatchIdx (m : M) (s : Str) : Option Nat :=
  (List.range (s.length + 1)).find? (fun i => !(m (s.drop i)).isEmpty)

/-- `re.sub(pat + '.*$', '', s)`: cut the string at the leftmost match of
`pat` (the matched tail extends to the end of the string). -/
def cutAtRE (m : M) (s : Str) : Str :=
  match findMatchIdx m s with
  | some i => s.take i
  | none => s

/-- `re.split(pat, s)`: split at every non-overlapping leftmost match,
scanning left to right and resuming after each match. -/
def splitREGo (m : M) : Nat → Str → Str → List Str
  | 0, acc, s => [acc.reverse ++ s]
  | _, acc, [] => [acc.reverse]
  | fuel + 1, acc, c :: rest =>
    match (m (c :: rest)).head? with
    | some rem => acc.reverse :: splitREGo m fuel [] rem
    | none => splitREGo m fuel (c :: acc) rest

def splitRE (m : M) (s : Str) : List Str := splitREGo m (s.length + 1) [] s

/-!
### Lexical tables (`PREP_WORDS`, `BRANDS`, … from the source)
-/

def PREP_WORDS : List Str := strs [
  "chopped", "diced", "minced", "grated", "shredded", "sliced",
  "peeled", "seeded", "fresh", "frozen",
  "dried", "cooked", "uncooked", "raw", "cut",
  "halved", "quartered", "whole", "boneless", "skinless",
  "pounded", "melted", "softened", "beaten", "sifted",
  "trimmed", "cubed", "julienned", "rough", "finely",
  "thinly", "thickly", "smashed", "mashed", "pureed",
  "blanched", "toasted", "grilled", "fried",
  "divided", "room", "temperature", "more", "taste", "needed",
  "rinsed", "drained", "patted", "dry", "squeezed",
  "stem", "removed", "deveined", "gutted", "scaled",
  "pitted", "cored", "ribbed", "scrubbed", "washed",
  "soaked", "rehydrated", "thawed", "defrosted",
  "crumbled", "flaked", "torn", "pulled", "stripped",
  "and"]

def BRANDS : List Str := strs [
  "King Arthur", "McCormick", "Kraft", "Barilla", "Rao\x27s",
  "Trader Joe\x27s", "Swanson", "Hunt\x27s", "De Cecco", "Dole",
  "Sargento", "Applegate", "Bertolli", "Galbani", "San Marzano",
  "Kerrygold", "Land O Lakes", "Philadelphia", "Hellmann\x27s",
  "French\x27s", "Heinz", "Kikkoman", "Lee Kum Kee", "Grey Poupon",
  "Tabasco", "Frank\x27s", "Cholula", "Sriracha", "Huy Fong",
  "Bob\x27s Red Mill", "Ghirardelli", "Callebaut", "Valrhona",
  "Penzeys", "Simply Organic", "Morton", "Diamond Crystal"]

def SIZE_WORDS : List Str := strs [
  "small", "medium", "large", "extra large", "extra-large", "xl",
  "jumbo", "baby", "mini", "giant", "big", "little", "tiny",
  "petite", "young", "mature", "thick", "thin", "wide", "narrow"]

def COLOR_WORDS : List Str := strs [
  "green", "red", "yellow", "orange", "purple", "white", "black"]

def PRODUCT_DESCRIPTORS : List Str := strs [
  "ground", "crushed", "marinated", "roasted", "smoked",
  "pickled", "cured", "aged", "fermented"]

def QUALITY_WORDS : List Str := strs [
  "fresh", "organic", "free-range", "free range", "grass-fed", "grass fed",
  "wild-caught", "wild caught", "cage-free", "cage free",
  "extra virgin", "extra-virgin", "virgin", "extra", "pure", "natural",
  "premium", "select", "choice", "prime", "quality", "good",
  "best", "favorite", "favourite", "homemade", "store-bought",
  "high-quality", "high quality", "artisan", "artisanal",
  "certified", "authentic", "traditional", "classic", "old-fashioned",
  "full", "fat", "full fat", "whole", "skim", "low-fat", "low fat",
  "reduced", "reduced-fat", "nonfat", "non-fat", "sweet",
  "ripe", "unripe", "mature", "young",
  "salted", "unsalted", "lightly salted",
  "very", "cold", "hot", "warm", "cool",
  "dry", "wet", "moist",
  "canned", "fine", "coarse", "coarsely",
  "preferably", "freshly", "freshly-ground"]

def unitsVolume : List Str := strs [
  "cup", "cups", "c", "c.",
  "tablespoon", "tablespoons", "tbsp", "tbs", "T", "Tbsp", "Tbs",
  "teaspoon", "teaspoons", "tsp", "t", "Tsp",
  "fluid ounce", "fluid ounces", "fl oz", "fl. oz.", "fl oz.", "fl.oz.",
  "pint", "pints", "pt",
  "quart", "quarts", "qt",
  "gallon", "gallons", "gal",
  "milliliter", "milliliters", "millilitre", "millilitres", "ml", "mL",
  "liter", "liters", "litre", "litres", "l", "L"]

def unitsWeight : List Str := strs [
  "ounce", "ounces", "oz", "oz.",
  "pound", "pounds", "lb", "lbs", "lb.", "lbs.",
  "gram", "grams", "g", "g.",
  "kilogram", "kilograms", "kg", "kilo", "kilos"]

def unitsCount : List Str := strs [
  "clove", "cloves", "sprig", "sprigs",
  "bunch", "bunches", "head", "heads",
  "stalk", "stalks", "rib", "ribs",
  "slice", "slices", "piece", "pieces",
  "leaf", "leaves", "stem", "stems"]

def unitsContainer : List Str := strs [
  "can", "cans", "jar", "jars",
  "box", "boxes", "package", "packages", "pkg",
  "bag", "bags", "container", "containers",
  "carton", "cartons", "bottle", "bottles",
  "pouch", "pouches", "tin", "tins"]

def allUnits : List Str := unitsVolume ++ unitsWeight ++ unitsCount ++ unitsContainer

/-- Stable insertion into a length-descending list (mirrors
`sorted(all_units, key=len, reverse=True)`: Python's sort is stable). -/
def insertByLenDesc (u : Str) : List (List Char) → List (List Char)
  | [] => [u]
  | v :: vs => if v.length < u.length then u :: v :: vs else v :: insertByLenDesc u vs

def sortedUnits : List Str := allUnits.foldl (fun acc u => insertByLenDesc u acc) []

/-!
### Bullet stripping (`BULLET_PATTERNS`, `strip_bullets`)

Each pattern is anchored (`^…`), so `re.sub` removes at most one prefix
occurrence; the patterns are backtracking-free (whitespace run, one glyph,
whitespace run / digit run, one punctuation mark, whitespace run), so each
is a deterministic prefix stripper.
-/

def checkboxGlyphs : Str :=
  ['▢', '□', '■', '☐', '☑', '☒',
   '✓', '✔', '✕', '✖', '✗', '✘']

def bulletGlyphs : Str := ['•', '◦', '▪', '▫', '⦿', '⦾', '○', '●']

def dashGlyphs : Str := ['*', '+', '-', '–', '—']

/-- `re.sub(r'^[\s]*[G][\s]*', '', s)` for a glyph set `G`. -/
def stripGlyphPat (glyphs : Str) (s : Str) : Str :=
  match s.dropWhile pyWs with
  | c :: rest => if glyphs.contains c then rest.dropWhile pyWs else s
  | [] => s

/-- `re.sub(r'^[\s]*\d+[\.\)\-]\s*', '', s)`. -/
def stripNumberPat (s : Str) : Str :=
  let t := s.dropWhile pyWs
  if (t.takeWhile isDigitChar).isEmpty then s
  else
    match t.dropWhile isDigitChar with
    | c :: rest => if c = '.' ∨ c = ')' ∨ c = '-' then rest.dropWhile pyWs else s
    | [] => s

/-- The four `BULLET_PATTERNS` substitutions applied in source order. -/
def bulletPasses (s : Str) : Str :=
  stripNumberPat (stripGlyphPat dashGlyphs (stripGlyphPat bulletGlyphs (stripGlyphPat checkboxGlyphs s)))

/-- `strip_bullets`: apply every bullet pattern, then `str.strip()`. -/
def strip_bullets (s : Str) : Str := trim (bulletPasses s)

/-!
### Measurement stripping (step 3 of `parse_ingredient_line`)
-/

/-- The leading amount character class
`[\d\s\/\.\-\+~¼½¾⅓⅔⅛⅜⅝⅞]` of the measurement pattern. -/
def measCls (c : Char) : Bool :=
  isDigitChar c || pyWs c ||
  (['/', '.', '-', '+', '~', '¼', '½', '¾', '⅓', '⅔', '⅛', '⅜', '⅝', '⅞'] : Str).contains c

/-- `({units_pattern})` — the unit alternation, longest spelling first. -/
def mUnits : M := mAlts sortedUnits

/-- `(\([^)]*\))`. -/
def mParenGroup : M :=
  mSeq (mLit ['(']) (mSeq (mClsMany (fun c => !(c = ')'))) (mLit [')']))

/-- `(to\s+[CLS]+\s*({units_pattern})?\.?\s*)` — the range clause. -/
def mRangeClause : M :=
  mSeq (mLitCI "to".data)
    (mSeq mWsSome
      (mSeq (mClsSome measCls)
        (mSeq mWsMany
          (mSeq (mOpt mUnits) (mSeq (mOpt (mLit ['.'])) mWsMany)))))

/-- The full anchored `measurement_pattern` of the source:
`^[CLS]+\s*(\([^)]*\))?\s*({units})?\.?\s+(to\s+[CLS]+\s*({units})?\.?\s*)?`. -/
def mMeasPattern : M :=
  mSeq (mClsSome measCls)
    (mSeq mWsMany
      (mSeq (mOpt mParenGroup)
        (mSeq mWsMany
          (mSeq (mOpt mUnits)
            (mSeq (mOpt (mLit ['.']))
              (mSeq mWsSome (mOpt mRangeClause)))))))

/-- `re.match(measurement_pattern, s)`: remainder after the match, if any. -/
def measMatch (s : Str) : Option Str := (mMeasPattern s).head?

/-- Character class `[\d\s\/\.\-]` of the trailing-measurement pattern. -/
def trailCls (c : Char) : Bool :=
  isDigitChar c || pyWs c || (['/', '.', '-'] : Str).contains c

/-- `\s+[\d\s\/\.\-]+\s*({units_pattern})\s*` — must consume to `$`. -/
def mTrailPattern : M :=
  mSeq mWsSome (mSeq (mClsSome trailCls) (mSeq mWsMany (mSeq mUnits mWsMany)))

/-- `re.sub(r'\s+[\d\s\/\.\-]+\s*({units})\s*$', '', s)`: drop the suffix at
the leftmost position from which the pattern matches through to the end. -/
def stripTrailingMeas (s : Str) : Str :=
  match (List.range (s.length + 1)).find?
      (fun i => (mTrailPattern (s.drop i)).any (fun r => r.isEmpty)) with
  | some i => s.take i
  | none => s

/-- `^[a-zA-Z\s]+\s+of\s+\d+\s+` — the "X of N Y" pattern. -/
def mOfPattern : M :=
  mSeq (mClsSome (fun c => isAsciiAlpha c || pyWs c))
    (mSeq mWsSome
      (mSeq (mLitCI "of".data)
        (mSeq mWsSome (mSeq (mClsSome isDigitChar) mWsSome))))

def ofMatch (s : Str) : Option Str := (mOfPattern s).head?

/-!
### Name cleaner (`clean_ingredient_name`)
-/

/-- `re.sub(r'\(OPEN[^CLOSE]*CLOSE\)', '', s)` for a bracket pair: delete every
span from an opening glyph to the next closing glyph; an opening glyph with no
closing glyph after it matches nothing and is kept. -/
def removeSpans (o c : Char) : Nat → Str → Str
  | 0, s => s
  | _, [] => []
  | fuel + 1, x :: rest =>
    if x = o then
      let inner := rest.takeWhile (fun d => !(d = c))
      match rest.drop inner.length with
      | _ :: rest2 => removeSpans o c fuel rest2
      | [] => x :: removeSpans o c fuel rest
    else x :: removeSpans o c fuel rest

/-- Split on `[,]|\s+[\-–—]\s+` (a comma, or a dash surrounded by
whitespace), keeping empty parts, exactly as `re.split` does. -/
def splitSepGo : Nat → Str → Str → List Str
  | 0, acc, s => [acc.reverse ++ s]
  | _, acc, [] => [acc.reverse]
  | fuel + 1, acc, ',' :: rest => acc.reverse :: splitSepGo fuel [] rest
  | fuel + 1, acc, c :: rest =>
    if pyWs c then
      let run := (c :: rest).takeWhile pyWs
      match (c :: rest).drop run.length with
      | d :: rest2 =>
        if d = '-' ∨ d = '–' ∨ d = '—' then
          let run2 := rest2.takeWhile pyWs
          if run2.isEmpty then splitSepGo fuel (d :: (run.reverse ++ acc)) rest2
          else acc.reverse :: splitSepGo fuel [] (rest2.drop run2.length)
        else splitSepGo fuel (run.reverse ++ acc) (d :: rest2)
      | [] => [acc.reverse ++ run]
    else splitSepGo fuel (c :: acc) rest

def splitSep (s : Str) : List Str := splitSepGo (s.length + 1) [] s

/-- The comma/dash clause-filtering block: only taken when the separator
pattern occurs; keeps the stripped parts containing a word that is neither a
prep word nor a quality word, joined with single spaces. -/
def sepFilterStep (s : Str) : Str :=
  let parts := (splitSep s).map trim
  if parts.length ≤ 1 then s
  else
    joinSpace (parts.filter (fun part =>
      (splitWS part).any (fun w =>
        !(memStr (pyLower w) PREP_WORDS) && !(memStr (pyLower w) QUALITY_WORDS))))

/-- `re.sub(r'^each[\s:]+', '', s, flags=re.IGNORECASE)`. -/
def stripEachStep (s : Str) : Str :=
  if pyLower (s.take 4) = "each".data then
    let rest := s.drop 4
    let run := rest.takeWhile (fun c => pyWs c || c = ':')
    if run.isEmpty then s else rest.drop run.length
  else s

/-- `\s+such\s+as\s+`. -/
def mSuchAs : M :=
  mSeq mWsSome (mSeq (mLitCI "such".data) (mSeq mWsSome (mSeq (mLitCI "as".data) mWsSome)))

/-- The "such as" truncation step. -/
def suchAsStep (s : Str) : Str :=
  if containsSub " such as ".data (pyLower s) then cutAtRE mSuchAs s else s

/-- `\s+or\s+`. -/
def mOrSep : M := mSeq mWsSome (mSeq (mLitCI "or".data) mWsSome)

/-- `\s+and\s+`. -/
def mAndSep : M := mSeq mWsSome (mSeq (mLitCI "and".data) mWsSome)

/-- `count_descriptor_words` from the source: words (punctuation-stripped,
lower-cased) that are size, color, or quality descriptors. -/
def count_descriptor_words (t : Str) : Nat :=
  ((splitWS t).filter (fun w =>
    let w' := stripChars ".,;:-".data (pyLower w)
    memStr w' SIZE_WORDS || memStr w' COLOR_WORDS || memStr w' QUALITY_WORDS)).length

/-- The prep-word count used next to `count_descriptor_words`. -/
def count_prep_words (t : Str) : Nat :=
  ((splitWS t).filter (fun w =>
    memStr (stripChars ".,;:-".data (pyLower w)) PREP_WORDS)).length

/-- The "junk score" of an "or" alternative: descriptor words plus prep words. -/
def junkScore (t : Str) : Nat := count_descriptor_words t + count_prep_words t

/-- The `' or '` alternative-resolution block of `clean_ingredient_name`. -/
def resolveOr (s : Str) : Str :=
  if containsSub " or ".data (pyLower s) then
    let parts := splitRE mOrSep s
    let first := parts.headD []
    let last := parts.getLastD []
    let firstJunk := junkScore first
    let lastJunk := junkScore last
    if lastJunk < firstJunk then last
    else if firstJunk < lastJunk then first
    else if (splitWS last).length ≤ (splitWS first).length then first
    else last
  else s

/-- The `' and '` compound-resolution block. -/
def resolveAnd (s : Str) : Str :=
  if containsSub " and ".data (pyLower s) then
    let parts := splitRE mAndSep s
    if (splitWS (parts.headD [])).length ≤ 3 then parts.headD [] else s
  else s

/-- The tail-stripping substitutions of `clean_ingredient_name`, in source
order; each pattern ends in `.*$`, so a match deletes through to the end. -/
def cutTails (s : Str) : Str :=
  [mSeq mWsSome (mSeq (mLitCI "plus".data) mWsSome),
   mSeq mWsSome (mSeq (mLitCI "for".data) mWsSome),
   mSeq mWsSome (mSeq (mLitCI "to".data) (mSeq mWsSome (mLitCI "taste".data))),
   mSeq mWsSome (mSeq (mLitCI "as".data) (mSeq mWsSome (mLitCI "needed".data))),
   mSeq mWsSome (mSeq (mLitCI "by".data) (mSeq mWsSome (mLitCI "hand".data))),
   mSeq mWsSome (mSeq (mLitCI "with".data) mWsSome),
   mSeq mWsSome (mSeq (mLitCI "omit".data) mWsSome),
   mSeq (mLit ['.']) (mSeq mWsMany (mSeq (mLitCI "See".data) (mSeq mWsSome (mLitCI "Note".data)))),
   mSeq mWsSome (mSeq (mLitCI "See".data) (mSeq mWsSome (mLitCI "Note".data)))
  ].foldl (fun acc m => cutAtRE m acc) s

def isWordChar (c : Char) : Bool := isAsciiAlpha c || isDigitChar c || c = '_'

/-- `re.sub(r'\b' + re.escape(brand) + r'\b', '', s, flags=re.IGNORECASE)`:
remove every word-bounded, case-insensitive occurrence of one brand. -/
def removeBrandGo (b : Str) : Nat → Option Char → Str → Str
  | 0, _, s => s
  | _, _, [] => []
  | fuel + 1, prev, c :: rest =>
    let s := c :: rest
    let prevIsWord := match prev with | some p => isWordChar p | none => false
    if !prevIsWord && !b.isEmpty && pyLower (s.take b.length) = pyLower b &&
        (match s.drop b.length with | [] => true | d :: _ => !isWordChar d) then
      removeBrandGo b fuel ((s.take b.length).getLast?) (s.drop b.length)
    else c :: removeBrandGo b fuel (some c) rest

def removeBrands (s : Str) : Str :=
  BRANDS.foldl (fun acc b => removeBrandGo b (acc.length + 1) none acc) s

/-- Prep-word removal with the leading product-descriptor exception. -/
def prepFilterStep (s : Str) : Str :=
  let words := splitWS s
  match words with
  | [] => []
  | [w] => w
  | w :: rest =>
    let firstLower := stripChars ".,;:".data (pyLower w)
    let firstKept : List Str :=
      if memStr firstLower PRODUCT_DESCRIPTORS then [w]
      else if !(memStr firstLower PREP_WORDS) then [w]
      else []
    let restKept := rest.filter (fun v =>
      let vl := stripChars ".,;:".data (pyLower v)
      !(memStr vl PREP_WORDS) && !vl.isEmpty)
    joinSpace (firstKept ++ restKept)

/-- Nouns for which a preceding color word is dropped. -/
def REMOVE_COLOR_FOR : List Str := strs ["pepper", "peppers", "bell", "cabbage", "squash"]

/-- Nouns for which a color word is a product type (declared in the source;
the filter's condition only consults `REMOVE_COLOR_FOR`). -/
def KEEP_COLOR_FOR : List Str := strs ["onion", "onions", "beans", "olives", "rice"]

/-- Size/color/quality filtering with the next-word color condition. -/
def colorSizeQualityGo : List Str → List Str
  | [] => []
  | w :: rest =>
    let wc := stripChars ".,;:".data (pyLower w)
    if memStr wc COLOR_WORDS then
      let nextW := match rest with
        | n :: _ => stripChars ".,;:".data (pyLower n)
        | [] => []
      if memStr nextW REMOVE_COLOR_FOR then colorSizeQualityGo rest
      else w :: colorSizeQualityGo rest
    else if !(memStr wc SIZE_WORDS) && !(memStr wc QUALITY_WORDS) then
      w :: colorSizeQualityGo rest
    else colorSizeQualityGo rest

/-- `clean_ingredient_name`, as the source's ordered pipeline. -/
def clean_ingredient_name (text : Str) : Str :=
  let c1 := removeSpans '(' ')' text.length text
  let c2 := removeSpans '[' ']' c1.length c1
  let c3 := sepFilterStep c2
  let c4 := stripEachStep c3
  let c5 := suchAsStep c4
  let c6 := resolveOr c5
  let c7 := resolveAnd c6
  let c8 := cutTails c7
  let c9 := removeBrands c8
  let c10 := prepFilterStep c9
  let c11 := joinSpace (colorSizeQualityGo (splitWS c10))
  let c12 := joinSpace (splitWS c11)
  trim (stripChars ".,;:-".data c12)

/-!
### Headers, confidence, and the orchestrator
-/

/-- `(cups?|tbsp?|tsp?|oz|lbs?|g|kg)` of `is_section_header`'s search. -/
def mSecUnits : M :=
  mAlts (strs ["cups", "cup", "tbsp", "tbs", "tsp", "ts", "oz", "lbs", "lb", "g", "kg"])

/-- `\d+[\s\-]*(\/\d+)?\s*(cups?|tbsp?|tsp?|oz|lbs?|g|kg)`. -/
def mSecMeas : M :=
  mSeq (mClsSome isDigitChar)
    (mSeq (mClsMany (fun c => pyWs c || c = '-'))
      (mSeq (mOpt (mSeq (mLit ['/']) (mClsSome isDigitChar)))
        (mSeq mWsMany mSecUnits)))

/-- `re.search` of the measurement-like pattern inside `is_section_header`. -/
def hasSecMeasurement (line : Str) : Bool :=
  (List.range (line.length + 1)).any (fun i => !(mSecMeas (line.drop i)).isEmpty)

/-- `is_section_header`: ends with a colon, is at most 50 characters long,
and contains no measurement-like substring. -/
def is_section_header (line : Str) : Bool :=
  if line.getLast? = some ':' then
    if line.length > 50 then false else !hasSecMeasurement line
  else false

/-- `re.sub(r'^for\s+the\s+', '', s, flags=re.IGNORECASE)`. -/
def stripForThe (s : Str) : Str :=
  match (mSeq (mLitCI "for".data)
    (mSeq mWsSome (mSeq (mLitCI "the".data) mWsSome))) s |>.head? with
  | some rem => rem
  | none => s

/-- `re.sub(r'^for\s+', '', s, flags=re.IGNORECASE)`. -/
def stripForOnly (s : Str) : Str :=
  match (mSeq (mLitCI "for".data) mWsSome) s |>.head? with
  | some rem => rem
  | none => s

/-- `extract_section_name`: strip trailing colons and whitespace, strip a
leading "for the " / "for " prefix, then title-case. -/
def extract_section_name (line : Str) : Str :=
  pyTitle (stripForOnly (stripForThe (trim (rstripChars [':'] line))))

/-- The generic-header list (the source's list spells "you'll need" twice). -/
def genericHeaders : List Str := strs [
  "ingredients", "you will need", "you\x27ll need", "you\x27ll need",
  "what you need", "shopping list", "supplies", "grocery list",
  "directions", "instructions", "steps", "method", "preparation"]

/-- `is_generic_header`: lower-case, strip whitespace, strip trailing colons,
test membership in the generic list. -/
def is_generic_header (line : Str) : Bool :=
  memStr (rstripChars [':'] (trim (pyLower line))) genericHeaders

/-- The fixed common single-word ingredient list of `assess_confidence`. -/
def common_single : List Str := strs [
  "salt", "pepper", "sugar", "flour", "butter", "milk", "water",
  "eggs", "egg", "garlic", "onion", "tomato", "cheese", "rice",
  "oil", "vinegar", "lemon", "lime", "parsley", "basil", "oregano",
  "chicken", "beef", "pork", "fish", "salmon", "shrimp", "bacon",
  "pasta", "bread", "potato", "carrot", "celery", "spinach"]

/-- `assess_confidence`. -/
def assess_confidence (name : Str) : Str :=
  if name.isEmpty || name.length < 2 then "low".data
  else if memStr (pyLower name) common_single then "high".data
  else
    let wordCount := (splitWS name).length
    if 2 ≤ wordCount ∧ wordCount ≤ 3 then "high".data
    else if 4 ≤ wordCount ∨ name.length < 3 then "low".data
    else "medium".data

/-- Output record of the parser.  The Python dict's optional `section` key is
the `sectionName` field (`none` when the key is absent). -/
structure ParsedIngredient where
  original : Str
  name : Str
  sectionName : Option Str
  optional : Bool
  confidence : Str
deriving Repr, DecidableEq

/-- `parse_ingredient_line`. -/
def parse_ingredient_line (line : Str) : Option ParsedIngredient :=
  let original := line
  let cleaned := strip_bullets line
  if cleaned.isEmpty then none
  else
    let opt := containsSub "optional".data (pyLower cleaned)
    let ingredientText :=
      match measMatch cleaned with
      | some rem => stripTrailingMeas (trim rem)
      | none =>
        match ofMatch cleaned with
        | some rem => trim rem
        | none => cleaned
    let name := clean_ingredient_name ingredientText
    if name.isEmpty || name.length < 2 then none
    else some ⟨original, name, none, opt, assess_confidence name⟩

/-- The line loop of `parse_recipe_text`: `sec` is the running
`current_section` (a section set to the empty string is falsy in Python and
is therefore not attached). -/
def processLines : List Str → Option Str → List ParsedIngredient
  | [], _ => []
  | line :: rest, sec =>
    let l := trim line
    if l.isEmpty then processLines rest sec
    else if is_section_header l then processLines rest (some (extract_section_name l))
    else if is_generic_header l then processLines rest sec
    else
      match parse_ingredient_line l with
      | some r =>
        (match sec with
         | some s => if s.isEmpty then r else { r with sectionName := some s }
         | none => r) :: processLines rest sec
      | none => processLines rest sec

/-- `parse_recipe_text`: strip the text, split on newlines, run the loop. -/
def parse_recipe_text (text : Str) : List ParsedIngredient :=
  processLines (splitNL (trim text)) none

set_option maxRecDepth 100000

/-!
### Supporting lemmas about trimming and line splitting
-/

lemma isEmpty_false_of_ne_nil {s : Str} (h : s ≠ []) : s.isEmpty = false := by
  cases s with
  | nil => exact absurd rfl h
  | cons c cs => rfl

lemma dropWhile_eq_self_of_head {r : Str} (h : ∀ c, r.head? = some c → pyWs c = false) :
    r.dropWhile pyWs = r := by
  cases r with
  | nil => rfl
  | cons c t => simp [List.dropWhile_cons, h c rfl]

lemma head_false_of_dropWhile_eq_self {r : Str} (h : r.dropWhile pyWs = r) :
    ∀ c, r.head? = some c → pyWs c = false := by
  cases r with
  | nil => intro c hc; cases hc
  | cons c t =>
    intro d hd
    rw [List.head?_cons, Option.some.injEq] at hd
    subst hd
    by_contra hws
    rw [Bool.not_eq_false] at hws
    rw [List.dropWhile_cons, if_pos hws] at h
    have hle := List.IsSuffix.length_le (List.dropWhile_suffix (l := t) pyWs)
    have hlen := congrArg List.length h
    simp only [List.length_cons] at hlen
    omega

lemma trimRight_eq_self_iff {s : Str} :
    trimRight s = s ↔ (∀ c, s.getLast? = some c → pyWs c = false) := by
  unfold trimRight List.rdropWhile
  rw [List.reverse_eq_iff]
  constructor
  · intro h c hc
    exact head_false_of_dropWhile_eq_self h c (by rw [List.head?_reverse]; exact hc)
  · intro h
    exact dropWhile_eq_self_of_head (fun c hc => h c (by rw [← List.head?_reverse]; exact hc))

lemma trimRight_idem (s : Str) : trimRight (trimRight s) = trimRight s :=
  List.rdropWhile_idempotent pyWs s

lemma trimLeft_idem (s : Str) : trimLeft (trimLeft s) = trimLeft s :=
  List.dropWhile_idempotent pyWs s

lemma trimLeft_suffix (s : Str) : trimLeft s <:+ s := List.dropWhile_suffix pyWs

lemma trimRight_trimLeft {y : Str} (h : trimRight y = y) :
    trimRight (trimLeft y) = trimLeft y := by
  by_cases hnil : trimLeft y = []
  · rw [hnil]; rfl
  · rw [trimRight_eq_self_iff]
    intro d hd
    obtain ⟨pre, hpre⟩ := trimLeft_suffix y
    have hgl : y.getLast? = (trimLeft y).getLast? := by
      rw [← List.getLast?_append_of_ne_nil pre hnil, hpre]
    exact trimRight_eq_self_iff.mp h d (by rw [hgl]; exact hd)

lemma trim_trim (s : Str) : trim (trim s) = trim s := by
  unfold trim
  rw [trimRight_trimLeft (trimRight_idem s), trimLeft_idem]

lemma trimRight_eq_of_trim_eq {s : Str} (h : trim s = s) : trimRight s = s := by
  have hpre : trimRight s <+: s := List.rdropWhile_prefix pyWs s
  apply hpre.eq_of_length
  have h1 := hpre.length_le
  have h2 := List.IsSuffix.length_le (trimLeft_suffix (trimRight s))
  rw [show trimLeft (trimRight s) = trim s from rfl, h] at h2
  omega

lemma trimRight_append {x C : Str} (hC : trimRight C = C) (hne : C ≠ []) :
    trimRight (x ++ C) = x ++ C := by
  rw [trimRight_eq_self_iff]
  intro c hc
  rw [List.getLast?_append_of_ne_nil x hne] at hc
  exact trimRight_eq_self_iff.mp hC c hc

lemma trimLeft_cons_of_not {c : Char} {t : Str} (h : pyWs c = false) :
    trimLeft (c :: t) = c :: t := by
  unfold trimLeft
  rw [List.dropWhile_cons, h]
  rfl

lemma splitNL_no_nl {a : Str} (h : '\n' ∉ a) : splitNL a = [a] := by
  induction a with
  | nil => rfl
  | cons c rest ih =>
    have hc : ¬(c = '\n') := fun hh => h (List.mem_cons.mpr (Or.inl hh.symm))
    simp only [splitNL, if_neg hc, ih (fun hm => h (List.mem_cons_of_mem c hm))]

lemma splitNL_append {a : Str} (b : Str) (h : '\n' ∉ a) :
    splitNL (a ++ '\n' :: b) = a :: splitNL b := by
  induction a with
  | nil => simp [splitNL]
  | cons c rest ih =>
    have hc : ¬(c = '\n') := fun hh => h (List.mem_cons.mpr (Or.inl hh.symm))
    rw [List.cons_append]
    simp only [splitNL, if_neg hc, ih (fun hm => h (List.mem_cons_of_mem c hm))]

/-!
### Structural lemmas about the parser
-/

/-- An emitted record keeps the input line verbatim in `original`, has no
section, sets `optional` by the substring test on the bullet-stripped line,
and has a name of length at least 2 (the guard before emission). -/
lemma parse_ingredient_line_some {line : Str} {r : ParsedIngredient}
    (h : parse_ingredient_line line = some r) :
    r.original = line ∧ r.sectionName = none ∧
    r.optional = containsSub "optional".data (pyLower (strip_bullets line)) ∧
    2 ≤ r.name.length := by
  simp only [parse_ingredient_line] at h
  split at h
  · exact absurd h (by simp)
  · split at h
    · exact absurd h (by simp)
    · rename_i hguard
      rw [Option.some.injEq] at h
      subst h
      refine ⟨rfl, rfl, rfl, ?_⟩
      dsimp only
      simp only [Bool.or_eq_true, not_or, List.isEmpty_iff, decide_eq_true_eq] at hguard
      omega

/-- Every record of the line loop comes from some line whose trimmed form
parses, and agrees with that parse on all fields except the section. -/
lemma mem_processLines {r : ParsedIngredient} :
    ∀ (lines : List Str) (sec : Option Str), r ∈ processLines lines sec →
      ∃ l ∈ lines, ∃ r0, parse_ingredient_line (trim l) = some r0 ∧
        r.original = r0.original ∧ r.name = r0.name ∧ r.optional = r0.optional := by
  intro lines
  induction lines with
  | nil => intro sec h; simp [processLines] at h
  | cons line rest ih =>
    intro sec h
    simp only [processLines] at h
    by_cases h1 : (trim line).isEmpty
    · rw [if_pos h1] at h
      obtain ⟨l, hl, hrest⟩ := ih sec h
      exact ⟨l, List.mem_cons_of_mem _ hl, hrest⟩
    · rw [if_neg h1] at h
      by_cases h2 : is_section_header (trim line) = true
      · rw [if_pos h2] at h
        obtain ⟨l, hl, hrest⟩ := ih _ h
        exact ⟨l, List.mem_cons_of_mem _ hl, hrest⟩
      · rw [if_neg h2] at h
        by_cases h3 : is_generic_header (trim line) = true
        · rw [if_pos h3] at h
          obtain ⟨l, hl, hrest⟩ := ih sec h
          exact ⟨l, List.mem_cons_of_mem _ hl, hrest⟩
        · rw [if_neg h3] at h
          rcases hpl : parse_ingredient_line (trim line) with _ | r0
          · rw [hpl] at h
            obtain ⟨l, hl, hrest⟩ := ih sec h
            exact ⟨l, List.mem_cons_of_mem _ hl, hrest⟩
          · rw [hpl] at h
            rcases List.mem_cons.mp h with hr | hr
            · refine ⟨line, List.mem_cons_self _ _, r0, hpl, ?_⟩
              subst hr
              cases sec with
              | none => exact ⟨rfl, rfl, rfl⟩
              | some s =>
                by_cases hs : s.isEmpty = true
                · simp [hs]
                · simp [hs]
            · obtain ⟨l, hl, hrest⟩ := ih sec hr
              exact ⟨l, List.mem_cons_of_mem _ hl, hrest⟩

/-- When no line is a section header, the carried section stays `none` and no
record gets one. -/
lemma processLines_none_of_no_header {r : ParsedIngredient} :
    ∀ (lines : List Str), (∀ l ∈ lines, is_section_header (trim l) = false) →
      r ∈ processLines lines none → r.sectionName = none := by
  intro lines
  induction lines with
  | nil => intro _ h; simp [processLines] at h
  | cons line rest ih =>
    intro hall h
    have hhead : is_section_header (trim line) = false := hall line (List.mem_cons_self _ _)
    have htail : ∀ l ∈ rest, is_section_header (trim l) = false :=
      fun l hl => hall l (List.mem_cons_of_mem _ hl)
    simp only [processLines] at h
    by_cases h1 : (trim line).isEmpty
    · rw [if_pos h1] at h; exact ih htail h
    · rw [if_neg h1] at h
      rw [hhead] at h
      simp only [Bool.false_eq_true, if_false] at h
      by_cases h3 : is_generic_header (trim line) = true
      · rw [if_pos h3] at h; exact ih htail h
      · rw [if_neg h3] at h
        rcases hpl : parse_ingredient_line (trim line) with _ | r0
        · rw [hpl] at h; exact ih htail h
        · rw [hpl] at h
          rcases List.mem_cons.mp h with hr | hr
          · subst hr
            exact (parse_ingredient_line_some hpl).2.1
          · exact ih htail hr

/-- If every trimmed line fails to parse, the loop emits nothing, whatever
section state it carries. -/
lemma processLines_all_fail :
    ∀ (lines : List Str) (sec : Option Str),
      (∀ l ∈ lines, parse_ingredient_line (trim l) = none) →
      processLines lines sec = [] := by
  intro lines
  induction lines with
  | nil => intro sec _; rfl
  | cons line rest ih =>
    intro sec hall
    have hhead := hall line (List.mem_cons_self _ _)
    have htail : ∀ l ∈ rest, parse_ingredient_line (trim l) = none :=
      fun l hl => hall l (List.mem_cons_of_mem _ hl)
    simp only [processLines]
    by_cases h1 : (trim line).isEmpty
    · rw [if_pos h1]; exact ih sec htail
    · rw [if_neg h1]
      by_cases h2 : is_section_header (trim line) = true
      · rw [if_pos h2]; exact ih _ htail
      · rw [if_neg h2]
        by_cases h3 : is_generic_header (trim line) = true
        · rw [if_pos h3]; exact ih sec htail
        · rw [if_neg h3]
          rw [hhead]
          exact ih sec htail

/-- Loop step on a section-header line. -/
lemma processLines_cons_header {line : Str} {rest : List Str} {sec : Option Str}
    (h1 : (trim line).isEmpty = false) (h2 : is_section_header (trim line) = true) :
    processLines (line :: rest) sec =
      processLines rest (some (extract_section_name (trim line))) := by
  simp only [processLines, h1, h2, Bool.false_eq_true, if_false, if_true]

/-- Loop step on an ingredient line that parses. -/
lemma processLines_cons_ingredient {line : Str} {rest : List Str} {sec : Option Str}
    {r0 : ParsedIngredient}
    (h1 : (trim line).isEmpty = false) (h2 : is_section_header (trim line) = false)
    (h3 : is_generic_header (trim line) = false)
    (hp : parse_ingredient_line (trim line) = some r0) :
    processLines (line :: rest) sec =
      (match sec with
       | some s => if s.isEmpty then r0 else { r0 with sectionName := some s }
       | none => r0) :: processLines rest sec := by
  simp only [processLines, h1, h2, h3, hp, Bool.false_eq_true, if_false]

/-!
### Claim theorems
-/

/-- C1 (counterexample): for "Ingredients:\n1 cup flour\n2 eggs" both emitted
records carry section "Ingredients", derived from the header line — refuting
"the header line … does not become a section". -/
theorem c1_counterexample :
    (parse_recipe_text "Ingredients:\n1 cup flour\n2 eggs".data).map (fun r => r.sectionName) =
      [some "Ingredients".data, some "Ingredients".data] ∧
    extract_section_name "Ingredients:".data = "Ingredients".data := by
  decide

/-- C1 (amended): parsing "Ingredients:\n1 cup flour\n2 eggs" returns exactly
two records, named "flour" and "eggs" in that order; the header line produces
no record, but because the section-header test runs first it becomes the
section "Ingredients", carried by both records. -/
theorem c1_generic_header_parse :
    parse_recipe_text "Ingredients:\n1 cup flour\n2 eggs".data =
      [⟨"1 cup flour".data, "flour".data, some "Ingredients".data, false, "high".data⟩,
       ⟨"2 eggs".data, "eggs".data, some "Ingredients".data, false, "high".data⟩] := by
  decide

/-- C2 (counterexample): strip_bullets is not idempotent: stripping "--ab"
once gives "-ab", and a second application strips the remaining dash. -/
theorem c2_counterexample :
    strip_bullets (strip_bullets "--ab".data) ≠ strip_bullets "--ab".data := by
  decide

/-- C2 (amended): strip_bullets is idempotent on every string whose stripped
result is not itself still matched by a bullet pattern: for every x, either
strip_bullets (strip_bullets x) = strip_bullets x, or the bullet passes still
strip a further prefix of strip_bullets x. -/
theorem c2_strip_bullets_idempotent_unless :
    ∀ x : Str, strip_bullets (strip_bullets x) = strip_bullets x ∨
      bulletPasses (strip_bullets x) ≠ strip_bullets x := by
  intro x
  by_cases h : bulletPasses (strip_bullets x) = strip_bullets x
  · left
    show trim (bulletPasses (strip_bullets x)) = strip_bullets x
    rw [h]
    show trim (trim (bulletPasses x)) = trim (bulletPasses x)
    exact trim_trim _
  · right; exact h

/-- C3 (counterexample): "1 cup optionally parsley" contains "optional" only
inside the longer word "optionally" (it is not one of the line's words), yet
the emitted record has optional = true — the code tests for a substring, not
for the word. -/
theorem c3_counterexample :
    (parse_ingredient_line "1 cup optionally parsley".data).map (fun r => r.optional) =
      some true ∧
    memStr "optional".data (splitWS (pyLower (strip_bullets "1 cup optionally parsley".data))) =
      false := by
  decide

/-- C3 (amended): for every emitted record, optional is true iff "optional"
occurs case-insensitively as a substring of the bullet-stripped line; and
parsing "1 cup parsley (optional)" yields optional = true with name
"parsley". -/
theorem c3_optional_substring :
    (∀ (line : Str) (r : ParsedIngredient), parse_ingredient_line line = some r →
      r.optional = containsSub "optional".data (pyLower (strip_bullets line))) ∧
    (parse_ingredient_line "1 cup parsley (optional)".data).map (fun r => (r.name, r.optional)) =
      some ("parsley".data, true) := by
  constructor
  · intro line r h
    exact (parse_ingredient_line_some h).2.2.1
  · decide

theorem c3_optional_substring_witness :
    ∃ r, parse_ingredient_line "1 cup parsley (optional)".data = some r ∧
      r.optional =
        containsSub "optional".data (pyLower (strip_bullets "1 cup parsley (optional)".data)) := by
  refine ⟨⟨"1 cup parsley (optional)".data, "parsley".data, none, true, "high".data⟩,
    by decide, ?_⟩
  exact c3_optional_substring.1 "1 cup parsley (optional)".data _ (by decide)

/-- C4 (counterexample): for input "1 cup flour\n  2 eggs" the second input
line is "  2 eggs" (with leading whitespace), but the emitted record's
original is the stripped "2 eggs" — original is not verbatim. -/
theorem c4_counterexample :
    splitNL (trim "1 cup flour\n  2 eggs".data) = ["1 cup flour".data, "  2 eggs".data] ∧
    (parse_recipe_text "1 cup flour\n  2 eggs".data).map (fun r => r.original) =
      ["1 cup flour".data, "2 eggs".data] := by
  decide

/-- C4 (amended): original is the input line after stripping surrounding
whitespace, otherwise verbatim: parse_ingredient_line stores its argument
unchanged, and the orchestrator hands it each line trimmed. -/
theorem c4_original_trimmed :
    (∀ (line : Str) (r : ParsedIngredient), parse_ingredient_line line = some r →
      r.original = line) ∧
    (∀ (text : Str) (r : ParsedIngredient), r ∈ parse_recipe_text text →
      ∃ l ∈ splitNL (trim text), r.original = trim l) := by
  constructor
  · intro line r h
    exact (parse_ingredient_line_some h).1
  · intro text r h
    obtain ⟨l, hl, r0, hpl, ho, _, _⟩ := mem_processLines _ none h
    exact ⟨l, hl, by rw [ho, (parse_ingredient_line_some hpl).1]⟩

theorem c4_original_trimmed_witness :
    (∃ r, parse_ingredient_line "1 cup flour".data = some r ∧ r.original = "1 cup flour".data) ∧
    (∃ r, r ∈ parse_recipe_text "  1 cup flour  ".data ∧
      ∃ l ∈ splitNL (trim "  1 cup flour  ".data), r.original = trim l) := by
  constructor
  · exact ⟨⟨"1 cup flour".data, "flour".data, none, false, "high".data⟩, by decide,
      c4_original_trimmed.1 "1 cup flour".data _ (by decide)⟩
  · exact ⟨⟨"1 cup flour".data, "flour".data, none, false, "high".data⟩, by decide,
      c4_original_trimmed.2 "  1 cup flour  ".data _ (by decide)⟩

/-- C5: every record emitted by parse_recipe_text has a non-empty name of
length at least 2 (shorter cleaned names are dropped before emission). -/
theorem c5_name_length_invariant :
    ∀ (text : Str) (r : ParsedIngredient), r ∈ parse_recipe_text text →
      r.name ≠ [] ∧ 2 ≤ r.name.length := by
  intro text r h
  obtain ⟨l, _, r0, hpl, _, hn, _⟩ := mem_processLines _ none h
  have h2 := (parse_ingredient_line_some hpl).2.2.2
  rw [hn]
  refine ⟨?_, h2⟩
  intro hnil
  rw [hnil] at h2
  simp at h2

theorem c5_name_length_invariant_witness :
    ∃ r, r ∈ parse_recipe_text "1 cup flour".data ∧ r.name ≠ [] ∧ 2 ≤ r.name.length := by
  refine ⟨⟨"1 cup flour".data, "flour".data, none, false, "high".data⟩, by decide, ?_⟩
  exact c5_name_length_invariant "1 cup flour".data _ (by decide)

/-- C7 (counterexample): on "fresh basil or cilantro or fresh mint" the split
has three parts and the middle part "cilantro" has the strictly lowest junk
score, yet the step returns "fresh basil" — the code compares only the first
and last parts, so the claim "the result is the part with the lower junk
score" fails. -/
theorem c7_counterexample :
    resolveOr "fresh basil or cilantro or fresh mint".data = "fresh basil".data ∧
    splitRE mOrSep "fresh basil or cilantro or fresh mint".data =
      ["fresh basil".data, "cilantro".data, "fresh mint".data] ∧
    junkScore "cilantro".data < junkScore "fresh basil".data ∧
    junkScore "cilantro".data < junkScore "fresh mint".data := by
  decide

/-- C7 (amended): when " or " occurs, the text is split on the separator and
the result is chosen between the FIRST and the LAST part only: the part with
the lower junk score; on a tie, the part with more words; on a further tie,
the first part.  Middle parts are never selected. -/
theorem c7_or_first_last :
    ∀ s : Str, containsSub " or ".data (pyLower s) = true →
      (junkScore ((splitRE mOrSep s).getLastD []) < junkScore ((splitRE mOrSep s).headD []) →
        resolveOr s = (splitRE mOrSep s).getLastD []) ∧
      (junkScore ((splitRE mOrSep s).headD []) < junkScore ((splitRE mOrSep s).getLastD []) →
        resolveOr s = (splitRE mOrSep s).headD []) ∧
      (junkScore ((splitRE mOrSep s).headD []) = junkScore ((splitRE mOrSep s).getLastD []) →
        ((splitWS ((splitRE mOrSep s).getLastD [])).length ≤
            (splitWS ((splitRE mOrSep s).headD [])).length →
          resolveOr s = (splitRE mOrSep s).headD []) ∧
        ((splitWS ((splitRE mOrSep s).headD [])).length <
            (splitWS ((splitRE mOrSep s).getLastD [])).length →
          resolveOr s = (splitRE mOrSep s).getLastD [])) := by
  intro s hg
  simp only [resolveOr, hg, if_true]
  refine ⟨?_, ?_, ?_⟩
  · intro hlt
    rw [if_pos hlt]
  · intro hlt
    rw [if_neg (by omega), if_pos hlt]
  · intro heq
    constructor
    · intro hwc
      rw [if_neg (by omega), if_neg (by omega), if_pos hwc]
    · intro hwc
      rw [if_neg (by omega), if_neg (by omega), if_neg (by omega)]

theorem c7_or_first_last_witness :
    resolveOr "salt or fresh basil".data = "salt".data := by
  exact (c7_or_first_last "salt or fresh basil".data (by decide)).2.1 (by decide)

/-- Claim C8's confidence case analysis, stated from the specification's
words (the refinement counterpart to assess_confidence, evaluated in the
claimed order). -/
def confidenceSpec (name : Str) : Str :=
  if name.length < 2 then "low".data
  else if memStr (pyLower name) common_single then "high".data
  else if (splitWS name).length = 2 ∨ (splitWS name).length = 3 then "high".data
  else if 4 ≤ (splitWS name).length ∨ name.length < 3 then "low".data
  else "medium".data

/-- C8: assess_confidence implements exactly the claimed ordered case
analysis: empty/short → low; common single word → high; 2–3 words → high;
4+ words or length < 3 → low; otherwise medium. -/
theorem c8_assess_confidence_correct :
    ∀ name : Str, assess_confidence name = confidenceSpec name := by
  intro name
  unfold assess_confidence confidenceSpec
  cases name with
  | nil => rfl
  | cons c cs =>
    simp only [List.isEmpty_cons, Bool.false_or, decide_eq_true_eq]
    split_ifs <;> first | rfl | omega

/-- C9: the parser degrades gracefully: the embedding is a total function,
the empty input yields the empty record list, and when every trimmed line
fails to parse the result is the empty list rather than an error. -/
theorem c9_graceful :
    parse_recipe_text "".data = [] ∧
    (∀ text : Str, (∀ l ∈ splitNL (trim text), parse_ingredient_line (trim l) = none) →
      parse_recipe_text text = []) := by
  constructor
  · decide
  · intro text h
    exact processLines_all_fail _ none h

theorem c9_graceful_witness :
    parse_recipe_text "a\n  \nfresh".data = [] := by
  exact c9_graceful.2 "a\n  \nfresh".data (by decide)

/-- C10: because the section-header test runs first, a generic-header line
that ends with a colon, is at most 50 characters long, and contains no
measurement substring is a section header (it sets the section rather than
being skipped); the generic-header skip is reachable for such a line only
without the trailing colon; concretely, "Directions:" sets section
"Directions" on the following record. -/
theorem c10_header_precedence :
    (∀ line : Str, is_generic_header line = true → line.getLast? = some ':' →
      line.length ≤ 50 → hasSecMeasurement line = false → is_section_header line = true) ∧
    (∀ line : Str, is_generic_header line = true → hasSecMeasurement line = false →
      line.length ≤ 50 → is_section_header line = false → line.getLast? ≠ some ':') ∧
    (is_generic_header "Directions:".data = true ∧
     is_generic_header "directions".data = true ∧
     is_section_header "directions".data = false ∧
     parse_recipe_text "Directions:\n1 cup flour".data =
       [⟨"1 cup flour".data, "flour".data, some "Directions".data, false, "high".data⟩]) := by
  refine ⟨?_, ?_, by decide⟩
  · intro line _ h2 h3 h4
    unfold is_section_header
    rw [if_pos h2, if_neg (by omega), h4]
    rfl
  · intro line _ hm hlen hsec hcolon
    unfold is_section_header at hsec
    rw [if_pos hcolon, if_neg (by omega), hm] at hsec
    simp at hsec

theorem c10_header_precedence_witness :
    is_section_header "Ingredients:".data = true ∧
    ¬(("ingredients".data : Str).getLast? = some ':') := by
  constructor
  · exact c10_header_precedence.1 "Ingredients:".data (by decide) (by decide) (by decide)
      (by decide)
  · exact c10_header_precedence.2.1 "ingredients".data (by decide) (by decide) (by decide)
      (by decide)

lemma trimLeft_eq_self_of_head {s : Str} (h : ∀ c, s.head? = some c → pyWs c = false) :
    trimLeft s = s := dropWhile_eq_self_of_head h

/-- C6: the carried section is last-write-wins: for "Sauce:\nA\nB\nToppings:\nC"
with A, B, C valid ingredient lines, the records for A and B carry section
"Sauce" and the record for C carries "Toppings"; and in a text with no
section-header line, every record carries no section. -/
theorem c6_section_persistence :
    (∀ (A B C : Str) (ra rb rc : ParsedIngredient),
      '\n' ∉ A → trim A = A → A ≠ [] → is_section_header A = false →
        is_generic_header A = false → parse_ingredient_line A = some ra →
      '\n' ∉ B → trim B = B → B ≠ [] → is_section_header B = false →
        is_generic_header B = false → parse_ingredient_line B = some rb →
      '\n' ∉ C → trim C = C → C ≠ [] → is_section_header C = false →
        is_generic_header C = false → parse_ingredient_line C = some rc →
      parse_recipe_text
          ("Sauce:\n".data ++ (A ++ ("\n".data ++ (B ++ ("\nToppings:\n".data ++ C))))) =
        [{ ra with sectionName := some "Sauce".data },
         { rb with sectionName := some "Sauce".data },
         { rc with sectionName := some "Toppings".data }]) ∧
    (∀ text : Str, (∀ l ∈ splitNL (trim text), is_section_header (trim l) = false) →
      ∀ r ∈ parse_recipe_text text, r.sectionName = none) := by
  constructor
  · intro A B C ra rb rc hAnl hA hAne hAsec hAgen hra hBnl hB hBne hBsec hBgen hrb
      hCnl hC hCne hCsec hCgen hrc
    have hCr : trimRight C = C := trimRight_eq_of_trim_eq hC
    have htrim :
        trim ("Sauce:\n".data ++ (A ++ ("\n".data ++ (B ++ ("\nToppings:\n".data ++ C))))) =
          "Sauce:\n".data ++ (A ++ ("\n".data ++ (B ++ ("\nToppings:\n".data ++ C)))) := by
      have hsplit :
          "Sauce:\n".data ++ (A ++ ("\n".data ++ (B ++ ("\nToppings:\n".data ++ C)))) =
            ("Sauce:\n".data ++ (A ++ ("\n".data ++ (B ++ "\nToppings:\n".data)))) ++ C := by
        simp [List.append_assoc]
      rw [hsplit]
      unfold trim
      rw [trimRight_append hCr hCne]
      apply trimLeft_eq_self_of_head
      intro c hc
      have hh : ((("Sauce:\n".data ++ (A ++ ("\n".data ++ (B ++ "\nToppings:\n".data)))) ++
          C).head? : Option Char) = some 'S' := rfl
      rw [hh, Option.some.injEq] at hc
      subst hc
      decide
    unfold parse_recipe_text
    rw [htrim]
    have hlines :
        splitNL ("Sauce:\n".data ++ (A ++ ("\n".data ++ (B ++ ("\nToppings:\n".data ++ C))))) =
          ["Sauce:".data, A, B, "Toppings:".data, C] := by
      show splitNL ("Sauce:".data ++ '\n' ::
        (A ++ '\n' :: (B ++ '\n' :: ("Toppings:".data ++ '\n' :: C)))) = _
      rw [splitNL_append _ (by decide), splitNL_append _ hAnl, splitNL_append _ hBnl,
        splitNL_append _ (by decide), splitNL_no_nl hCnl]
    rw [hlines]
    rw [processLines_cons_header (by decide) (by decide)]
    rw [show extract_section_name (trim "Sauce:".data) = "Sauce".data from by decide]
    rw [processLines_cons_ingredient (by rw [hA]; exact isEmpty_false_of_ne_nil hAne)
      (by rw [hA]; exact hAsec) (by rw [hA]; exact hAgen) (by rw [hA]; exact hra)]
    rw [processLines_cons_ingredient (by rw [hB]; exact isEmpty_false_of_ne_nil hBne)
      (by rw [hB]; exact hBsec) (by rw [hB]; exact hBgen) (by rw [hB]; exact hrb)]
    rw [processLines_cons_header (by decide) (by decide)]
    rw [show extract_section_name (trim "Toppings:".data) = "Toppings".data from by decide]
    rw [processLines_cons_ingredient (by rw [hC]; exact isEmpty_false_of_ne_nil hCne)
      (by rw [hC]; exact hCsec) (by rw [hC]; exact hCgen) (by rw [hC]; exact hrc)]
    rfl
  · intro text hall r hr
    exact processLines_none_of_no_header (splitNL (trim text)) hall hr

theorem c6_section_persistence_witness :
    parse_recipe_text "Sauce:\n1 cup flour\n2 eggs\nToppings:\n3 cups sugar".data =
      [⟨"1 cup flour".data, "flour".data, some "Sauce".data, false, "high".data⟩,
       ⟨"2 eggs".data, "eggs".data, some "Sauce".data, false, "high".data⟩,
       ⟨"3 cups sugar".data, "sugar".data, some "Toppings".data, false, "high".data⟩] ∧
    (∀ r ∈ parse_recipe_text "1 cup flour".data, r.sectionName = none) := by
  constructor
  · exact c6_section_persistence.1 "1 cup flour".data "2 eggs".data "3 cups sugar".data
      ⟨"1 cup flour".data, "flour".data, none, false, "high".data⟩
      ⟨"2 eggs".data, "eggs".data, none, false, "high".data⟩
      ⟨"3 cups sugar".data, "sugar".data, none, false, "high".data⟩
      (by decide) (by decide) (by decide) (by decide) (by decide) (by decide)
      (by decide) (by decide) (by decide) (by decide) (by decide) (by decide)
      (by decide) (by decide) (by decide) (by decide) (by decide) (by decide)
  · intro r hr
    exact c6_section_persistence.2 "1 cup flour".data (by decide) r hr
